import Mathlib

/-!
Shallow embedding of the rsbuild-plugin-vfd core (src/src/ts/plugin.ts).

Source text is modelled as `List Char`.  The three JS regexes of the
classifier, the two tie-breaking lookahead regexes, the preflight substring
checks and the global case-insensitive replace of the rewriter are each
embedded as executable functions over `List Char`, following the JS regex
semantics (`\s` = JS whitespace class, `.` = any char but a line
terminator, `/i` = ASCII case folding on the whole pattern).
-/

namespace Vfd

/-- Predicate for the JS regex class `\s` (ECMAScript WhiteSpace and LineTerminator). -/
def jsWS (c : Char) : Bool :=
  c = '\t' || c = '\n' || c = '\x0b' || c = '\x0c' || c = '\r' || c = ' ' ||
  c = '\u00A0' || c = '\u1680' || ('\u2000' ≤ c && c ≤ '\u200A') ||
  c = '\u2028' || c = '\u2029' || c = '\u202F' || c = '\u205F' ||
  c = '\u3000' || c = '\uFEFF'

/-- Predicate for the JS regex `.` without the `s` flag: any char except a line terminator. -/
def jsDot (c : Char) : Bool :=
  !(c = '\n' || c = '\r' || c = '\u2028' || c = '\u2029')

/-- Predicate for the JS regex class `['"]`. -/
def isQuote (c : Char) : Bool := c = '\'' || c = '"'

/-- Predicate for the JS regex class `[A-Za-z]`. -/
def isAsciiLetter (c : Char) : Bool :=
  ('A' ≤ c && c ≤ 'Z') || ('a' ≤ c && c ≤ 'z')

/-- Predicate for the JS regex class `[A-Z]`. -/
def isAsciiUpper (c : Char) : Bool := 'A' ≤ c && c ≤ 'Z'

/-- Consume a literal (case-sensitive) at the head of `s`; return the rest. -/
def dropLit : List Char → List Char → Option (List Char)
  | [], s => some s
  | _ :: _, [] => none
  | p :: ps, c :: cs => if c = p then dropLit ps cs else none

/-- ASCII case-insensitive character comparison, as used by the JS `i` flag
on an ASCII pattern. -/
def eqCI (p c : Char) : Bool := p.toLower = c.toLower

/-- Consume a literal case-insensitively at the head of `s`; return the rest. -/
def consumeLitCI : List Char → List Char → Option (List Char)
  | [], s => some s
  | _ :: _, [] => none
  | p :: ps, c :: cs => if eqCI p c then consumeLitCI ps cs else none

/-- Unanchored regex search: try the anchored matcher `m` at every position
of the text (including the end-of-text position). -/
def existsMatch (m : List Char → Bool) : List Char → Bool
  | [] => m []
  | c :: t => m (c :: t) || existsMatch m t

/-- The JS regex fragment `.*` followed by a continuation matcher `p`:
some (possibly empty) run of non-line-terminator chars, then `p`. -/
def dotStar (p : List Char → Bool) : List Char → Bool
  | [] => p []
  | c :: t => p (c :: t) || (jsDot c && dotStar p t)

/-- Embedding of JS `String.prototype.includes` (plain substring containment). -/
def includesLit (needle hay : List Char) : Bool :=
  existsMatch (fun s => (dropLit needle s).isSome) hay

/-- Embedding of `passesPreflight` from plugin.ts: rejects style blocks,
template blocks, and text already containing `toNative`. -/
def passesPreflight (code : List Char) : Bool :=
  !(includesLit "type=style".toList code) &&
  !(includesLit "type=template".toList code) &&
  !(includesLit "toNative".toList code)

/-- Anchored matcher for the regex `from\s+['"]vue-facing-decorator['"]`. -/
def matchFromVfd (s : List Char) : Bool :=
  match dropLit "from".toList s with
  | none => false
  | some r =>
    match r with
    | [] => false
    | w :: rest =>
      jsWS w &&
      (match rest.dropWhile jsWS with
       | [] => false
       | q1 :: r3 =>
         isQuote q1 &&
         (match dropLit "vue-facing-decorator".toList r3 with
          | none => false
          | some r4 =>
            match r4 with
            | [] => false
            | q2 :: _ => isQuote q2))

/-- Anchored matcher for the regex fragment `extends\sVue`. -/
def matchExtendsVue (s : List Char) : Bool :=
  match dropLit "extends".toList s with
  | none => false
  | some r =>
    match r with
    | [] => false
    | w :: r2 => jsWS w && (dropLit "Vue".toList r2).isSome

/-- Anchored matcher for the regex fragment `extends` (bare). -/
def matchExtendsAny (s : List Char) : Bool :=
  (dropLit "extends".toList s).isSome

/-- Anchored matcher for the regex `class.*extends\sVue`. -/
def matchClassExtVue (s : List Char) : Bool :=
  match dropLit "class".toList s with
  | none => false
  | some r => dotStar matchExtendsVue r

/-- Anchored matcher for the regex `class.*extends`. -/
def matchClassExtAny (s : List Char) : Bool :=
  match dropLit "class".toList s with
  | none => false
  | some r => dotStar matchExtendsAny r

/-- Check that the text does not start with the given character (a negative
lookahead on a single char; succeeds at end of text). -/
def headNot (c : Char) : List Char → Bool
  | [] => true
  | d :: _ => d ≠ c

/-- Anchored matcher for `export\sdefault\s` followed by a lookahead test. -/
def matchExportDefault (look : List Char → Bool) (s : List Char) : Bool :=
  match dropLit "export".toList s with
  | none => false
  | some r =>
    match r with
    | [] => false
    | w1 :: r2 =>
      jsWS w1 &&
      (match dropLit "default".toList r2 with
       | none => false
       | some r3 =>
         match r3 with
         | [] => false
         | w2 :: r4 => jsWS w2 && look r4)

/-- The lookahead pair `(?!class)(?![A-Z])` of the fifth rule. -/
def look5b (r : List Char) : Bool :=
  (dropLit "class".toList r).isNone &&
  (match r with
   | [] => true
   | d :: _ => !isAsciiUpper d)

/-- Test for `/from\s+['"]vue-facing-decorator['"]/` anywhere in the text. -/
def testFromVfd (code : List Char) : Bool := existsMatch matchFromVfd code

/-- Test for `/class.*extends\sVue/` anywhere in the text. -/
def testClassVue (code : List Char) : Bool := existsMatch matchClassExtVue code

/-- Test for `/class.*extends/` anywhere in the text. -/
def testClassAny (code : List Char) : Bool := existsMatch matchClassExtAny code

/-- Test for the first tie-breaking rule's regex `/export\sdefault\s(?!\x7b)/`. -/
def test5a (code : List Char) : Bool :=
  existsMatch (matchExportDefault (headNot '\x7b')) code

/-- Test for the second tie-breaking rule's regex `/export\sdefault\s(?!class)(?![A-Z])/`. -/
def test5b (code : List Char) : Bool :=
  existsMatch (matchExportDefault look5b) code

/-- Confidence accumulated by the first two (milestone) rules of
`exportsClassComponent`: +40 for the library import, then +40 for a class
extending Vue, else +10 for any other class with an extends clause. -/
def milestoneConfidence (code : List Char) : Int :=
  (if testFromVfd code then 40 else 0) +
  (if testClassVue code then 40 else if testClassAny code then 10 else 0)

/-- Embedding of `exportsClassComponent` from plugin.ts: milestone rules,
early exit at score > 50, then the two ±1 tie-breaking rules, final
verdict `score > 50`. -/
def exportsClassComponent (code : List Char) : Bool :=
  let confidence := milestoneConfidence code
  if confidence > 50 then
    true
  else
    let c1 := confidence + (if test5a code then 1 else 0)
    let c2 := c1 - (if test5b code then 1 else 0)
    decide (c2 > 50)

/-- The fixed generated binding pattern head of the rewrite regex
`const _sfc_main = ([A-Za-z]*);` (everything before the capture group). -/
def sfcPattern : List Char := "const _sfc_main = ".toList

/-- Head of the replacement text `const _sfc_main = toNative($1);`. -/
def toNativeRepl : List Char := "const _sfc_main = toNative(".toList

/-- Anchored matcher for the rewrite regex `const _sfc_main = ([A-Za-z]*);`
with the `i` flag: case-insensitive literal head, then a greedy (possibly
empty) run of ASCII letters (the capture), then a semicolon.  Returns the
capture and the rest of the text after the match. -/
def matchSfcAssign (s : List Char) : Option (List Char × List Char) :=
  match consumeLitCI sfcPattern s with
  | none => none
  | some r =>
    match r.dropWhile isAsciiLetter with
    | [] => none
    | c :: rest =>
      if c = ';' then some (r.takeWhile isAsciiLetter, rest) else none

/-- Fuel-indexed worker for the global replace: at each position, either
emit the replacement and continue after the match, or copy one char. -/
def replaceSfcF : Nat → List Char → List Char
  | 0, s => s
  | fuel + 1, s =>
    match matchSfcAssign s with
    | some (cap, rest) =>
      toNativeRepl ++ cap ++ ')' :: ';' :: replaceSfcF fuel rest
    | none =>
      match s with
      | [] => []
      | c :: t => c :: replaceSfcF fuel t

/-- Embedding of `code.replace(/const _sfc_main = ([A-Za-z]*);/ig, "const
_sfc_main = toNative($1);")`: left-to-right, non-overlapping global
replacement. -/
def replaceSfc (s : List Char) : List Char := replaceSfcF s.length s

/-- The import line the transform prepends:
`'\nimport \x7btoNative\x7d from "vue-facing-decorator";\n'`. -/
def vueFacingImport : List Char :=
  "\nimport \x7btoNative\x7d from \"vue-facing-decorator\";\n".toList

/-- Embedding of the transform handler registered by `pluginVfd`: skip when
the predicate rejects, otherwise prepend the import and apply the rewrite. -/
def transformHandler (isCC : List Char → Bool) (code : List Char) : List Char :=
  if isCC code then vueFacingImport ++ replaceSfc code else code

/-- The default `isClassComponent` implementation of `PluginVfdOptions`:
`passesPreflight(code) && exportsClassComponent(code)`. -/
def defaultIsClassComponent (code : List Char) : Bool :=
  passesPreflight code && exportsClassComponent code

/-- The full default pipeline: the transform handler with the default
classification predicate. -/
def pipeline (code : List Char) : List Char :=
  transformHandler defaultIsClassComponent code

/-- Does some position of the text match the rewrite regex (does the
generated assignment pattern occur at all)? -/
def sfcAssignSomewhere (code : List Char) : Bool :=
  existsMatch (fun s => (matchSfcAssign s).isSome) code

/-- Rule 5a as the spec words it (for comparison with `test5a`): +1 when the
default export target is neither an inline object literal nor a class
declaration, i.e. `export\sdefault\s` followed by neither `\x7b` nor the
keyword `class`. -/
def rule5aSpec (code : List Char) : Bool :=
  existsMatch
    (matchExportDefault
      (fun r => headNot '\x7b' r && (dropLit "class".toList r).isNone))
    code

/-! Generic lemmas about the matcher combinators. -/

theorem dropLit_iff (lit s r : List Char) : dropLit lit s = some r ↔ s = lit ++ r := by
  induction lit generalizing s with
  | nil => simp [dropLit]
  | cons p ps ih =>
    cases s with
    | nil => simp [dropLit]
    | cons c cs =>
      by_cases h : c = p
      · subst h
        simp [dropLit, ih]
      · simp [dropLit, h, Ne.symm h]

theorem dropLit_append (lit r : List Char) : dropLit lit (lit ++ r) = some r :=
  (dropLit_iff lit (lit ++ r) r).mpr rfl

theorem existsMatch_iff (m : List Char → Bool) (s : List Char) :
    existsMatch m s = true ↔ ∃ l r, s = l ++ r ∧ m r = true := by
  induction s with
  | nil =>
    constructor
    · intro h
      exact ⟨[], [], rfl, h⟩
    · rintro ⟨l, r, he, hm⟩
      obtain ⟨rfl, rfl⟩ := List.append_eq_nil.mp he.symm
      exact hm
  | cons c t ih =>
    simp only [existsMatch, Bool.or_eq_true, ih]
    constructor
    · rintro (h | ⟨l, r, rfl, hm⟩)
      · exact ⟨[], c :: t, rfl, h⟩
      · exact ⟨c :: l, r, rfl, hm⟩
    · rintro ⟨l, r, he, hm⟩
      cases l with
      | nil =>
        left
        have he' : c :: t = r := by simpa using he
        subst he'
        exact hm
      | cons x xs =>
        right
        obtain ⟨rfl, rfl⟩ : x = c ∧ t = xs ++ r := by
          constructor
          · exact (List.cons.injEq _ _ _ _ ▸ he).1.symm
          · exact (List.cons.injEq _ _ _ _ ▸ he).2
        exact ⟨xs, r, rfl, hm⟩

theorem existsMatch_of_append (m : List Char → Bool) (l r : List Char)
    (h : m r = true) : existsMatch m (l ++ r) = true :=
  (existsMatch_iff m (l ++ r)).mpr ⟨l, r, rfl, h⟩

theorem dotStar_self (p : List Char → Bool) (s : List Char) (h : p s = true) :
    dotStar p s = true := by
  cases s <;> simp [dotStar, h]

theorem dotStar_append_of (p : List Char → Bool) (d s : List Char)
    (hd : ∀ c ∈ d, jsDot c = true) (h : p s = true) :
    dotStar p (d ++ s) = true := by
  induction d with
  | nil => exact dotStar_self p s h
  | cons c d' ih =>
    simp only [List.cons_append, dotStar, Bool.or_eq_true, Bool.and_eq_true]
    right
    exact ⟨hd c (by simp), ih (fun x hx => hd x (by simp [hx]))⟩

theorem dropWhile_append_of (p : Char → Bool) (l1 : List Char) (q : Char)
    (rest : List Char) (h : ∀ c ∈ l1, p c = true) (hq : p q = false) :
    (l1 ++ q :: rest).dropWhile p = q :: rest := by
  induction l1 with
  | nil => simp [List.dropWhile_cons, hq]
  | cons c ct ih =>
    simp only [List.cons_append, List.dropWhile_cons, h c (by simp)]
    exact ih (fun x hx => h x (by simp [hx]))

theorem takeWhile_append_of (p : Char → Bool) (l1 : List Char) (q : Char)
    (rest : List Char) (h : ∀ c ∈ l1, p c = true) (hq : p q = false) :
    (l1 ++ q :: rest).takeWhile p = l1 := by
  induction l1 with
  | nil => simp [List.takeWhile_cons, hq]
  | cons c ct ih =>
    have hc : p c = true := h c (by simp)
    simp only [List.cons_append, List.takeWhile_cons, hc, if_true, List.cons.injEq,
      true_and]
    exact ih (fun x hx => h x (by simp [hx]))

theorem consumeLitCI_append (lit pre rest : List Char)
    (h : pre.map Char.toLower = lit.map Char.toLower) :
    consumeLitCI lit (pre ++ rest) = some rest := by
  induction lit generalizing pre with
  | nil =>
    have : pre = [] := by simpa using h
    simp [this, consumeLitCI]
  | cons p ps ih =>
    cases pre with
    | nil => simp at h
    | cons c cs =>
      simp only [List.map_cons, List.cons.injEq] at h
      obtain ⟨h1, h2⟩ := h
      simp [consumeLitCI, eqCI, h1, ih cs h2]

theorem consumeLitCI_length (lit : List Char) :
    ∀ s r : List Char, consumeLitCI lit s = some r →
      s.length = lit.length + r.length := by
  induction lit with
  | nil =>
    intro s r h
    simp only [consumeLitCI, Option.some.injEq] at h
    simp [h]
  | cons p ps ih =>
    intro s r h
    cases s with
    | nil => simp [consumeLitCI] at h
    | cons c cs =>
      simp only [consumeLitCI] at h
      by_cases he : eqCI p c
      · rw [if_pos he] at h
        have := ih cs r h
        simp [this]
        omega
      · rw [if_neg he] at h
        exact absurd h (by simp)

/-! Lemmas about the concrete matchers of the classifier. -/

theorem isQuote_not_ws (c : Char) (h : isQuote c = true) : jsWS c = false := by
  rcases Bool.or_eq_true _ _ |>.mp h with h1 | h1
  · rw [show c = '\'' from by simpa using h1]
    decide
  · rw [show c = '"' from by simpa using h1]
    decide

theorem matchFromVfd_of (w : List Char) (q1 q2 : Char) (rest : List Char)
    (hw : w ≠ []) (hws : ∀ c ∈ w, jsWS c = true)
    (hq1 : isQuote q1 = true) (hq2 : isQuote q2 = true) :
    matchFromVfd
      ("from".toList ++ (w ++ q1 :: ("vue-facing-decorator".toList ++ q2 :: rest))) =
      true := by
  obtain ⟨wh, wt, rfl⟩ := List.exists_cons_of_ne_nil hw
  unfold matchFromVfd
  rw [show (wh :: wt) ++ q1 :: ("vue-facing-decorator".toList ++ q2 :: rest) =
        wh :: (wt ++ q1 :: ("vue-facing-decorator".toList ++ q2 :: rest)) from rfl]
  rw [dropLit_append]
  simp only [hws wh (by simp), Bool.true_and]
  rw [dropWhile_append_of jsWS wt q1 _ (fun c hc => hws c (by simp [hc]))
    (isQuote_not_ws q1 hq1)]
  simp only [hq1, Bool.true_and]
  rw [dropLit_append]
  simp [hq2]

theorem matchExtendsVue_of (w : Char) (rest : List Char) (hw : jsWS w = true) :
    matchExtendsVue ("extends".toList ++ w :: ("Vue".toList ++ rest)) = true := by
  unfold matchExtendsVue
  rw [dropLit_append]
  simp only [hw, Bool.true_and]
  rw [dropLit_append]
  rfl

theorem matchClassExtVue_of (d : List Char) (w : Char) (rest : List Char)
    (hd : ∀ c ∈ d, jsDot c = true) (hw : jsWS w = true) :
    matchClassExtVue
      ("class".toList ++ (d ++ ("extends".toList ++ w :: ("Vue".toList ++ rest)))) =
      true := by
  unfold matchClassExtVue
  rw [dropLit_append]
  exact dotStar_append_of matchExtendsVue d _ hd (matchExtendsVue_of w rest hw)

/-- The text contains a match of `from\s+['"]vue-facing-decorator['"]`:
an occurrence of `from`, one or more whitespace chars, a quote, the library
name, a quote. -/
def ContainsVfdImport (code : List Char) : Prop :=
  ∃ l w q1 q2 r,
    w ≠ [] ∧ (∀ c ∈ w, jsWS c = true) ∧ isQuote q1 = true ∧ isQuote q2 = true ∧
    code = l ++ ("from".toList ++ (w ++ q1 :: ("vue-facing-decorator".toList ++ q2 :: r)))

/-- The text contains a match of `class.*extends\sVue`: an occurrence of
`class`, then any chars without a line terminator, then `extends`, one
whitespace char, and `Vue`. -/
def ContainsClassExtendsVue (code : List Char) : Prop :=
  ∃ l d w r,
    (∀ c ∈ d, jsDot c = true) ∧ jsWS w = true ∧
    code = l ++ ("class".toList ++ (d ++ ("extends".toList ++ w :: ("Vue".toList ++ r))))

theorem testFromVfd_of (code : List Char) (h : ContainsVfdImport code) :
    testFromVfd code = true := by
  obtain ⟨l, w, q1, q2, r, hw, hws, hq1, hq2, rfl⟩ := h
  exact existsMatch_of_append matchFromVfd l _ (matchFromVfd_of w q1 q2 r hw hws hq1 hq2)

theorem testClassVue_of (code : List Char) (h : ContainsClassExtendsVue code) :
    testClassVue code = true := by
  obtain ⟨l, d, w, r, hd, hw, rfl⟩ := h
  exact existsMatch_of_append matchClassExtVue l _ (matchClassExtVue_of d w r hd hw)

theorem matchExportDefault_iff (look : List Char → Bool) (s : List Char) :
    matchExportDefault look s = true ↔
      ∃ w1 w2 r, jsWS w1 = true ∧ jsWS w2 = true ∧ look r = true ∧
        s = "export".toList ++ w1 :: ("default".toList ++ w2 :: r) := by
  constructor
  · intro h
    unfold matchExportDefault at h
    cases he : dropLit "export".toList s with
    | none => rw [he] at h; simp at h
    | some r1 =>
      rw [he] at h
      simp only [] at h
      have hs := (dropLit_iff _ _ _).mp he
      cases r1 with
      | nil => simp at h
      | cons w1 r2 =>
        simp only [] at h
        cases hd : dropLit "default".toList r2 with
        | none => rw [hd] at h; simp at h
        | some r3 =>
          rw [hd] at h
          simp only [] at h
          have hr2 := (dropLit_iff _ _ _).mp hd
          cases r3 with
          | nil => simp at h
          | cons w2 r4 =>
            simp only [Bool.and_eq_true] at h
            refine ⟨w1, w2, r4, h.1, h.2.1, h.2.2, ?_⟩
            rw [hs, hr2]
  · rintro ⟨w1, w2, r, hw1, hw2, hlook, rfl⟩
    unfold matchExportDefault
    rw [show "export".toList ++ w1 :: ("default".toList ++ w2 :: r) =
          "export".toList ++ (w1 :: ("default".toList ++ w2 :: r)) from rfl]
    rw [dropLit_append]
    simp only [hw1, Bool.true_and]
    rw [dropLit_append]
    simp [hw2, hlook]

theorem includesLit_iff (needle hay : List Char) :
    includesLit needle hay = true ↔ needle <:+: hay := by
  unfold includesLit
  rw [existsMatch_iff]
  constructor
  · rintro ⟨l, r, rfl, hm⟩
    obtain ⟨rest, hrest⟩ := Option.isSome_iff_exists.mp hm
    rw [(dropLit_iff _ _ _).mp hrest]
    exact ⟨l, rest, by simp⟩
  · rintro ⟨l, t, rfl⟩
    refine ⟨l, needle ++ t, by simp, ?_⟩
    rw [dropLit_append]
    rfl

/-! Lemmas about the rewrite function. -/

theorem matchSfcAssign_of (pre cap post : List Char)
    (hpre : pre.map Char.toLower = sfcPattern)
    (hcap : ∀ c ∈ cap, isAsciiLetter c = true) :
    matchSfcAssign (pre ++ (cap ++ ';' :: post)) = some (cap, post) := by
  unfold matchSfcAssign
  rw [consumeLitCI_append sfcPattern pre _
    (hpre.trans (by decide : sfcPattern = sfcPattern.map Char.toLower))]
  simp only []
  rw [dropWhile_append_of isAsciiLetter cap ';' post hcap (by decide)]
  simp only []
  rw [takeWhile_append_of isAsciiLetter cap ';' post hcap (by decide)]
  simp

theorem matchSfcAssign_length (s cap rest : List Char)
    (h : matchSfcAssign s = some (cap, rest)) :
    s.length = 19 + cap.length + rest.length := by
  unfold matchSfcAssign at h
  cases hc : consumeLitCI sfcPattern s with
  | none => rw [hc] at h; simp at h
  | some r =>
    rw [hc] at h
    simp only [] at h
    have hlen := consumeLitCI_length sfcPattern s r hc
    cases hd : r.dropWhile isAsciiLetter with
    | nil => rw [hd] at h; simp at h
    | cons c rest' =>
      rw [hd] at h
      simp only [] at h
      by_cases hsemi : c = ';'
      · rw [if_pos hsemi] at h
        simp only [Option.some.injEq, Prod.mk.injEq] at h
        obtain ⟨hcap, hrest⟩ := h
        have hsplit : r.takeWhile isAsciiLetter ++ r.dropWhile isAsciiLetter = r :=
          List.takeWhile_append_dropWhile isAsciiLetter r
        have hr : r.length = cap.length + 1 + rest.length := by
          rw [← hsplit, hd, hcap, hrest]
          simp
          omega
        have h18 : sfcPattern.length = 18 := by decide
        omega
      · rw [if_neg hsemi] at h
        exact absurd h (by simp)

theorem matchSfcAssign_nil : matchSfcAssign [] = none := by decide

theorem replaceSfcF_succ (fuel : Nat) (s : List Char) :
    replaceSfcF (fuel + 1) s =
      match matchSfcAssign s with
      | some (cap, rest) => toNativeRepl ++ cap ++ ')' :: ';' :: replaceSfcF fuel rest
      | none =>
        match s with
        | [] => []
        | c :: t => c :: replaceSfcF fuel t := rfl

theorem replaceSfcF_congr (f1 : Nat) :
    ∀ (f2 : Nat) (s : List Char), s.length ≤ f1 → s.length ≤ f2 →
      replaceSfcF f1 s = replaceSfcF f2 s := by
  induction f1 with
  | zero =>
    intro f2 s h1 _
    obtain rfl : s = [] := List.eq_nil_of_length_eq_zero (Nat.le_zero.mp h1)
    cases f2 with
    | zero => rfl
    | succ g =>
      rw [replaceSfcF_succ, matchSfcAssign_nil]
      rfl
  | succ f ih =>
    intro f2 s h1 h2
    cases f2 with
    | zero =>
      obtain rfl : s = [] := List.eq_nil_of_length_eq_zero (Nat.le_zero.mp h2)
      rw [replaceSfcF_succ, matchSfcAssign_nil]
      rfl
    | succ g =>
      rw [replaceSfcF_succ, replaceSfcF_succ g]
      cases hm : matchSfcAssign s with
      | some pr =>
        obtain ⟨cap, rest⟩ := pr
        have hl := matchSfcAssign_length s cap rest hm
        simp only []
        rw [ih g rest (by omega) (by omega)]
      | none =>
        cases s with
        | nil => rfl
        | cons c t =>
          have ht : t.length ≤ f := by simpa using h1
          have ht2 : t.length ≤ g := by simpa using h2
          simp only []
          rw [ih g t ht ht2]

theorem replaceSfc_some (s cap rest : List Char)
    (h : matchSfcAssign s = some (cap, rest)) :
    replaceSfc s = toNativeRepl ++ cap ++ ')' :: ';' :: replaceSfc rest := by
  have hl := matchSfcAssign_length s cap rest h
  unfold replaceSfc
  have hn : s.length = (19 + cap.length + rest.length - 1) + 1 := by omega
  rw [hn, replaceSfcF_succ, h]
  simp only []
  rw [replaceSfcF_congr (19 + cap.length + rest.length - 1) rest.length rest
    (by omega) (Nat.le_refl _)]

theorem replaceSfc_none_cons (c : Char) (t : List Char)
    (h : matchSfcAssign (c :: t) = none) :
    replaceSfc (c :: t) = c :: replaceSfc t := by
  unfold replaceSfc
  rw [List.length_cons, replaceSfcF_succ, h]

theorem length_le_replaceSfc (s : List Char) : s.length ≤ (replaceSfc s).length := by
  have main : ∀ (n : Nat) (s : List Char), s.length ≤ n →
      s.length ≤ (replaceSfc s).length := by
    intro n
    induction n with
    | zero =>
      intro s h
      simp_all
    | succ n ih =>
      intro s h
      cases hm : matchSfcAssign s with
      | some pr =>
        obtain ⟨cap, rest⟩ := pr
        have hl := matchSfcAssign_length s cap rest hm
        have hrest := ih rest (by omega)
        rw [replaceSfc_some s cap rest hm]
        simp only [List.length_append, List.length_cons]
        have : toNativeRepl.length = 27 := by decide
        omega
      | none =>
        cases s with
        | nil => simp
        | cons c t =>
          have := ih t (by simpa using h)
          rw [replaceSfc_none_cons c t hm]
          simpa using this
  exact main s.length s (Nat.le_refl _)

theorem replaceSfc_of_no_match (s : List Char) (h : sfcAssignSomewhere s = false) :
    replaceSfc s = s := by
  induction s with
  | nil => rfl
  | cons c t ih =>
    unfold sfcAssignSomewhere existsMatch at h
    simp only [Bool.or_eq_false_iff] at h
    obtain ⟨h1, h2⟩ := h
    rw [replaceSfc_none_cons c t (by
      cases hm : matchSfcAssign (c :: t) with
      | none => rfl
      | some pr => rw [hm] at h1; simp at h1)]
    rw [ih h2]

/-! Concrete texts used by the claims. -/

/-- Concrete case A of the spec: library import, `class Foo extends Vue`,
`export default Foo;`. -/
def caseAText : List Char :=
  "import Comp from \"vue-facing-decorator\";\nclass Foo extends Vue \x7b\x7d\nexport default Foo;\n".toList

/-- Concrete case B of the spec: library import, class extending `Base`,
lowercase default export: score 40 + 10 + 1 - 1 = 50. -/
def caseBText : List Char :=
  "import SomeType from \"vue-facing-decorator\";\nclass Foo extends Base \x7b\x7d\nexport default exampleComponent;\n".toList

/-- Text whose default export is a class declaration while the milestone
score sits at 50 (library import plus class extending `Base`). -/
def rule5aCexText : List Char :=
  "import SomeType from \"vue-facing-decorator\";\nclass Foo extends Base \x7b\x7d\nexport default class Foo extends Base \x7b\x7d\n".toList

/-! Claim theorems. -/

/-- C1 counterexample: on `rule5aCexText` the default export target is the
class declaration `export default class ...`, yet the code's rule 5a regex
matches (adding +1, which lifts the verdict to true at 51), while the
spec-worded rule (`rule5aSpec`, excluding class declarations) does not. -/
theorem rule5a_class_counterexample :
    test5a rule5aCexText = true ∧ rule5aSpec rule5aCexText = false ∧
    milestoneConfidence rule5aCexText = 50 ∧
    exportsClassComponent rule5aCexText = true :=
  ⟨by decide, by decide, by decide, by decide⟩

/-- C1 (amended): the first tie-breaking rule adds +1 exactly when the text
contains `export`, one whitespace, `default`, one whitespace, followed by a
character other than `\x7b` (or the end of the text); class declarations
are not excluded, so a default-exported class also receives the +1. -/
theorem rule5a_iff_not_object_literal (code : List Char) :
    test5a code = true ↔
      ∃ l w1 w2 r, jsWS w1 = true ∧ jsWS w2 = true ∧ headNot '\x7b' r = true ∧
        code = l ++ ("export".toList ++ w1 :: ("default".toList ++ w2 :: r)) := by
  unfold test5a
  rw [existsMatch_iff]
  constructor
  · rintro ⟨l, r, rfl, hm⟩
    obtain ⟨w1, w2, r4, h1, h2, h3, rfl⟩ := (matchExportDefault_iff _ _).mp hm
    exact ⟨l, w1, w2, r4, h1, h2, h3, rfl⟩
  · rintro ⟨l, w1, w2, r, h1, h2, h3, rfl⟩
    exact ⟨l, _, rfl, (matchExportDefault_iff _ _).mpr ⟨w1, w2, r, h1, h2, h3, rfl⟩⟩

/-- C2: the full pipeline with the default classifier is idempotent: when
the transform fires, its output contains `toNative` (in the prepended
header line), so the output fails preflight and the second run is a no-op. -/
theorem pipeline_idempotent (code : List Char) :
    pipeline (pipeline code) = pipeline code := by
  cases h : defaultIsClassComponent code with
  | false => simp [pipeline, transformHandler, h]
  | true =>
    have hinc : includesLit "toNative".toList (vueFacingImport ++ replaceSfc code) = true := by
      rw [includesLit_iff]
      have h1 : "toNative".toList <:+: vueFacingImport :=
        (includesLit_iff _ _).mp (by decide)
      exact h1.trans (List.prefix_append vueFacingImport (replaceSfc code)).isInfix
    have hpf : passesPreflight (vueFacingImport ++ replaceSfc code) = false := by
      unfold passesPreflight
      rw [hinc]
      simp
    have hd : defaultIsClassComponent (vueFacingImport ++ replaceSfc code) = false := by
      unfold defaultIsClassComponent
      rw [hpf]
      simp
    simp [pipeline, transformHandler, h, hd]

/-- C3 counterexample: `const _SFC_MAIN = Foo;` (binding name casing
changed) IS rewritten by the code — the `i` flag covers the whole pattern,
not just the `const` keyword — contradicting the claim that it is not. -/
theorem rewrite_uppercase_binding_counterexample :
    replaceSfc "const _SFC_MAIN = Foo;".toList ≠ "const _SFC_MAIN = Foo;".toList ∧
    replaceSfc "const _SFC_MAIN = Foo;".toList =
      "const _sfc_main = toNative(Foo);".toList :=
  ⟨by decide, by decide⟩

/-- C3 (amended): the whole assignment pattern, the `_sfc_main` binding name
included, is matched case-insensitively (ASCII case folding), and the
replacement always emits the canonical lowercase `const _sfc_main = toNative(...)`. -/
theorem rewrite_binding_case_insensitive (pre cap post : List Char)
    (hpre : pre.map Char.toLower = sfcPattern)
    (hcap : ∀ c ∈ cap, isAsciiLetter c = true) :
    replaceSfc (pre ++ (cap ++ ';' :: post)) =
      toNativeRepl ++ cap ++ ')' :: ';' :: replaceSfc post :=
  replaceSfc_some _ cap post (matchSfcAssign_of pre cap post hpre hcap)

/-- C3 witness: the amended theorem applied at `const _SFC_MAIN = Foo;`. -/
theorem rewrite_binding_case_insensitive_w :
    replaceSfc ("const _SFC_MAIN = ".toList ++ ("Foo".toList ++ ';' :: [])) =
      toNativeRepl ++ "Foo".toList ++ ')' :: ';' :: replaceSfc [] :=
  rewrite_binding_case_insensitive "const _SFC_MAIN = ".toList "Foo".toList []
    (by decide) (by decide)

/-- C4 counterexample: identifiers containing a digit or an underscore
(`Foo2`, `foo_bar`) are NOT rewritten — the capture group is `[A-Za-z]*`,
letters only — contradicting the claim that any bare word token is wrapped. -/
theorem rewrite_digit_underscore_counterexample :
    replaceSfc "const _sfc_main = Foo2;".toList =
      "const _sfc_main = Foo2;".toList ∧
    replaceSfc "const _sfc_main = foo_bar;".toList =
      "const _sfc_main = foo_bar;".toList :=
  ⟨by decide, by decide⟩

/-- C4 (amended): every occurrence of `const _sfc_main = <identifier>;`
whose identifier is a (possibly empty) run of ASCII letters only is
replaced by `const _sfc_main = toNative(<identifier>);`, and the rewrite
continues on the text after the match. -/
theorem rewrite_letter_identifiers (cap post : List Char)
    (hcap : ∀ c ∈ cap, isAsciiLetter c = true) :
    replaceSfc (sfcPattern ++ (cap ++ ';' :: post)) =
      toNativeRepl ++ cap ++ ')' :: ';' :: replaceSfc post :=
  replaceSfc_some _ cap post (matchSfcAssign_of sfcPattern cap post (by decide) hcap)

/-- C4 witness: the amended theorem applied with identifier `Foo` and a
second occurrence in the remaining text. -/
theorem rewrite_letter_identifiers_w :
    replaceSfc (sfcPattern ++ ("Foo".toList ++ ';' :: "const _sfc_main = Bar;".toList)) =
      toNativeRepl ++ "Foo".toList ++ ')' :: ';' ::
        replaceSfc "const _sfc_main = Bar;".toList :=
  rewrite_letter_identifiers "Foo".toList "const _sfc_main = Bar;".toList (by decide)

/-- C5: passesPreflight returns false exactly when the text contains one of
the literal substrings `type=style`, `type=template` or `toNative` (plain
substring containment), and true otherwise. -/
theorem preflight_substring_containment (code : List Char) :
    passesPreflight code = false ↔
      ("type=style".toList <:+: code ∨ "type=template".toList <:+: code ∨
        "toNative".toList <:+: code) := by
  rw [← includesLit_iff, ← includesLit_iff, ← includesLit_iff]
  unfold passesPreflight
  cases h1 : includesLit "type=style".toList code <;>
    cases h2 : includesLit "type=template".toList code <;>
      cases h3 : includesLit "toNative".toList code <;> simp

/-- C6: the verdict threshold is strict: case B accumulates exactly
40 + 10 + 1 - 1 = 50 (library import, class extending Base, lowercase
default export) and exportsClassComponent returns false. -/
theorem classifier_boundary_caseB :
    testFromVfd caseBText = true ∧ testClassVue caseBText = false ∧
    testClassAny caseBText = true ∧ test5a caseBText = true ∧
    test5b caseBText = true ∧ milestoneConfidence caseBText = 50 ∧
    exportsClassComponent caseBText = false :=
  ⟨by decide, by decide, by decide, by decide, by decide, by decide, by decide⟩

/-- C7: any text containing a match of the import regex and a match of the
class-extends-Vue regex reaches milestone score 80 and is classified true
via the early exit. -/
theorem classifier_early_exit (code : List Char)
    (h1 : ContainsVfdImport code) (h2 : ContainsClassExtendsVue code) :
    milestoneConfidence code = 80 ∧ exportsClassComponent code = true := by
  have t1 := testFromVfd_of code h1
  have t2 := testClassVue_of code h2
  have hm : milestoneConfidence code = 80 := by
    unfold milestoneConfidence
    rw [t1, t2]
    simp
  refine ⟨hm, ?_⟩
  unfold exportsClassComponent
  rw [hm]
  norm_num

/-- C7 witness: the early-exit theorem applied at concrete case A. -/
theorem classifier_early_exit_w :
    milestoneConfidence caseAText = 80 ∧ exportsClassComponent caseAText = true :=
  classifier_early_exit caseAText
    ⟨"import Comp ".toList, [' '], '"', '"',
      ";\nclass Foo extends Vue \x7b\x7d\nexport default Foo;\n".toList,
      by decide, by decide, by decide, by decide, by decide⟩
    ⟨"import Comp from \"vue-facing-decorator\";\n".toList, " Foo ".toList, ' ',
      " \x7b\x7d\nexport default Foo;\n".toList,
      by decide, by decide, by decide⟩

/-- C8: when the predicate rejects, the output is byte-identical to the
input; when it accepts, the output is exactly the import line prepended to
the rewritten text; and if no assignment pattern occurs, the rewritten text
is the input itself, so only the import is prepended. -/
theorem transformHandler_output (p : List Char → Bool) (code : List Char) :
    (p code = false → transformHandler p code = code) ∧
    (p code = true → transformHandler p code = vueFacingImport ++ replaceSfc code) ∧
    (p code = true → sfcAssignSomewhere code = false →
      transformHandler p code = vueFacingImport ++ code) := by
  refine ⟨fun h => ?_, fun h => ?_, fun h hn => ?_⟩
  · simp [transformHandler, h]
  · simp [transformHandler, h]
  · simp [transformHandler, h, replaceSfc_of_no_match code hn]

/-- C8 witness: the handler on `hello` (no assignment pattern) with an
accepting predicate prepends only the import. -/
theorem transformHandler_output_w :
    transformHandler (fun _ => true) "hello".toList =
      vueFacingImport ++ "hello".toList :=
  (transformHandler_output (fun _ => true) "hello".toList).2.2 rfl (by decide)

/-- C9: the rewrite regex accepts a zero-length identifier: on
`const _sfc_main = ;` the assignment is rewritten to
`const _sfc_main = toNative();`. -/
theorem rewrite_empty_identifier :
    replaceSfc "const _sfc_main = ;".toList =
      "const _sfc_main = toNative();".toList ∧
    transformHandler (fun _ => true) "const _sfc_main = ;".toList =
      vueFacingImport ++ "const _sfc_main = toNative();".toList :=
  ⟨by decide, by decide⟩

/-- C10: for any predicate p accepted on both the input and the transform's
output, re-running the transform changes the text again (another import
line is prepended): the handler alone is not idempotent. -/
theorem transform_reapplied_differs (p : List Char → Bool) (t : List Char)
    (h1 : p t = true) (h2 : p (transformHandler p t) = true) :
    transformHandler p (transformHandler p t) ≠ transformHandler p t := by
  have e2 : transformHandler p (transformHandler p t) =
      vueFacingImport ++ replaceSfc (transformHandler p t) := by
    rw [transformHandler, if_pos h2]
  have e1 : transformHandler p t = vueFacingImport ++ replaceSfc t := by
    rw [transformHandler, if_pos h1]
  intro he
  have hlen := congrArg List.length he
  rw [e2, e1] at hlen
  simp only [List.length_append] at hlen
  have hge := length_le_replaceSfc (vueFacingImport ++ replaceSfc t)
  simp only [List.length_append] at hge
  have himp : 0 < vueFacingImport.length := by decide
  omega

/-- C10 witness: with the constant-true predicate on the empty text, the
second application differs from the first. -/
theorem transform_reapplied_differs_w :
    transformHandler (fun _ => true) (transformHandler (fun _ => true) []) ≠
      transformHandler (fun _ => true) [] :=
  transform_reapplied_differs (fun _ => true) [] rfl rfl

end Vfd
